import Mathlib

/-!
Verification of the vault engine of the Password_Manager_AES repository
(`password_manager.py`, `password_strength_checker.py`).

Python byte strings are modelled as `List Nat`, Python `str` as Lean
`String` (or `List Char` for the strength scorer), Python `dict` as
association lists, and Python `None`-able attributes as `Option`.
A Python function that can raise inside a `try` block is modelled with
`Option`/`Except`: `none`/`.error` stands for a raised exception.
The AES-256 block transform, PBKDF2, and JSON (de)serialisation are
library primitives for the source; they enter the model as explicit
parameters (an abstract block cipher, an abstract key-derivation
function, an abstract serialiser), while everything the repository
itself implements (PKCS#7 padding, the CBC composition, the container
layout, the vault CRUD, rotation, the strength scorer) is translated
directly from the source.
-/

namespace PMAES

abbrev Bytes := List Nat

def blockSize : Nat := 16

/-- `PasswordManager._pad` (PKCS#7): `padding_length = 16 - len(data) % 16`,
then `data + bytes([padding_length] * padding_length)`. -/
def _pad (data : Bytes) : Bytes :=
  let paddingLength := blockSize - data.length % blockSize
  data ++ List.replicate paddingLength paddingLength

/-- `PasswordManager._unpad`: `padding_length = padded_data[-1]` raises
`IndexError` on an empty byte string (modelled as `none`); otherwise it
returns `padded_data[:-padding_length]`, where a final byte of `0` makes
the slice `[:-0] = [:0]`, i.e. the empty byte string. -/
def _unpad (padded_data : Bytes) : Option Bytes :=
  match padded_data.getLast? with
  | none => none
  | some n => if n = 0 then some [] else some (padded_data.take (padded_data.length - n))

/-- Byte-wise XOR, used to express the CBC chaining that the
`cryptography` library performs inside `modes.CBC`. -/
def xorBytes (a b : Bytes) : Bytes := List.zipWith (fun x y => x ^^^ y) a b

/-- The AES-256 block transform is a library primitive; the model takes
it as an abstract pair of per-block functions (key, 16-byte block). -/
structure BlockCipher where
  enc : Bytes → Bytes → Bytes
  dec : Bytes → Bytes → Bytes

/-- Split a byte string into 16-byte blocks (fuelled so that it computes
by `rfl`/`decide`; the fuel is always instantiated with the length). -/
def toBlocksAux : Nat → Bytes → List Bytes
  | _, [] => []
  | 0, _ :: _ => []
  | fuel + 1, a :: rest => (a :: rest).take blockSize :: toBlocksAux fuel ((a :: rest).drop blockSize)

def toBlocks (l : Bytes) : List Bytes := toBlocksAux l.length l

/-- CBC encryption over the abstract block cipher: each plaintext block
is XORed with the previous ciphertext block (initially the IV) and then
put through the block transform. This is what `encryptor.update` does
inside `PasswordManager._encrypt`. -/
def cbcEncBlocks (bc : BlockCipher) (key : Bytes) : Bytes → List Bytes → List Bytes
  | _, [] => []
  | prev, b :: bs =>
    let c := bc.enc key (xorBytes prev b)
    c :: cbcEncBlocks bc key c bs

/-- CBC decryption, the inverse chaining used by `decryptor.update`
inside `PasswordManager._decrypt`. -/
def cbcDecBlocks (bc : BlockCipher) (key : Bytes) : Bytes → List Bytes → List Bytes
  | _, [] => []
  | prev, c :: cs => xorBytes prev (bc.dec key c) :: cbcDecBlocks bc key c cs

/-- `PasswordManager._encrypt`: pad, then AES-CBC. -/
def _encrypt (bc : BlockCipher) (data key iv : Bytes) : Bytes :=
  (cbcEncBlocks bc key iv (toBlocks (_pad data))).flatten

/-- `PasswordManager._decrypt`: AES-CBC decrypt, then `_unpad`. The
library's `decryptor.finalize()` raises when the ciphertext is not a
multiple of the block size; that exception is modelled as `none`. -/
def _decrypt (bc : BlockCipher) (encrypted_data key iv : Bytes) : Option Bytes :=
  if encrypted_data.length % blockSize = 0 then
    _unpad ((cbcDecBlocks bc key iv (toBlocks encrypted_data)).flatten)
  else
    none

/-! ## Vault data model (`dict` → association list) -/

/-- One credential record, the value stored at `vault[service][username]`
by `PasswordManager.add_password`. -/
structure Entry where
  password : String
  url : String
  notes : String
  date_modified : String
deriving DecidableEq

/-- Python dict lookup `d[k]` / membership `k in d`; association lists
model dicts (keys unique, insertion order kept). -/
def dictGet {α : Type} (k : String) : List (String × α) → Option α
  | [] => none
  | (k', v) :: rest => if k = k' then some v else dictGet k rest

/-- Python dict assignment `d[k] = v`: replaces in place, or appends. -/
def dictSet {α : Type} (k : String) (v : α) : List (String × α) → List (String × α)
  | [] => [(k, v)]
  | (k', v') :: rest => if k = k' then (k, v) :: rest else (k', v') :: dictSet k v rest

/-- Python `del d[k]`. -/
def dictErase {α : Type} (k : String) : List (String × α) → List (String × α)
  | [] => []
  | (k', v') :: rest => if k = k' then rest else (k', v') :: dictErase k rest

abbrev ServiceMap := List (String × Entry)
abbrev Vault := List (String × ServiceMap)

/-- Keys are pairwise distinct — what a Python dict guarantees. -/
def keysNodup {α : Type} (l : List (String × α)) : Prop := (l.map Prod.fst).Nodup

/-- No service maps to an empty username dict. -/
def noEmptyService (v : Vault) : Prop := ∀ p ∈ v, p.2 ≠ []

/-- The body of `add_password` acting on the vault:
`if service not in vault: vault[service] = {}` then
`vault[service][username] = entry`. -/
def addToVault (vault : Vault) (service username : String) (e : Entry) : Vault :=
  let inner := (dictGet service vault).getD []
  dictSet service (dictSet username e inner) vault

/-! ## The manager state and the container file -/

/-- The mutable attributes of a `PasswordManager` instance
(`__init__` sets them all to `None` / `{}` / `False`). -/
structure ManagerState where
  master_key : Option Bytes
  vault : Vault
  salt : Option Bytes
  iv : Option Bytes
  initialized : Bool
deriving DecidableEq

/-- `PasswordManager.__init__`. -/
def initialState : ManagerState :=
  { master_key := none, vault := [], salt := none, iv := none, initialized := false }

/-- The vault container file: `none` = the file does not exist. -/
abbrev World := Option Bytes

/-- `PasswordManager.save_vault`. Parameters: the abstract block cipher
`bc`, the abstract JSON serialiser `ser` (for `json.dumps(...).encode`),
and `ioOk`, whether the file write succeeds (an I/O exception is caught
by the `except` and turned into `False`). Encrypting with a `None` key,
salt or IV would raise inside the same `try` and also yield `False`.
Returns (state, file, returned bool); the method assigns no attribute,
so the state component is the input state. -/
def save_vault (bc : BlockCipher) (ser : Vault → Bytes) (st : ManagerState)
    (w : World) (ioOk : Bool) : ManagerState × World × Bool :=
  if st.initialized = false then (st, w, false)
  else
    match st.salt, st.iv, st.master_key with
    | some salt, some iv, some key =>
      if ioOk then (st, some (salt ++ iv ++ _encrypt bc (ser st.vault) key iv), true)
      else (st, w, false)
    | _, _, _ => (st, w, false)

/-- `PasswordManager._create_new_vault`: fresh random `salt` and `iv`
(passed in, since `os.urandom` is a random source), derived key, empty
vault, `initialized = True`, then `save_vault` (return value ignored). -/
def _create_new_vault (bc : BlockCipher) (ser : Vault → Bytes)
    (derive : String → Bytes → Bytes) (st : ManagerState) (w : World)
    (master_password : String) (newSalt newIv : Bytes) (ioOk : Bool) :
    ManagerState × World :=
  let st1 : ManagerState :=
    { st with salt := some newSalt, iv := some newIv,
              master_key := some (derive master_password newSalt),
              vault := [], initialized := true }
  let r := save_vault bc ser st1 w ioOk
  (r.1, r.2.1)

/-- `PasswordManager._load_vault`. `deser` models `json.loads` on the
decoded text (`none` = parse error). The attribute assignments happen in
order inside the `try`, so on a decrypt or parse failure the already
assigned `salt`/`iv`/`master_key` keep their new values while
`initialized` becomes `False` and the method returns `False`. -/
def _load_vault (bc : BlockCipher) (deser : Bytes → Option Vault)
    (derive : String → Bytes → Bytes) (st : ManagerState)
    (encrypted_data : Bytes) (master_password : String) :
    ManagerState × Bool :=
  let salt_iv := encrypted_data.take 32
  let salt := salt_iv.take 16
  let iv := (salt_iv.drop 16).take 16
  let key := derive master_password salt
  let cipher_text := encrypted_data.drop 32
  match _decrypt bc cipher_text key iv with
  | none =>
    ({ st with salt := some salt, iv := some iv, master_key := some key,
               initialized := false }, false)
  | some decrypted_data =>
    match deser decrypted_data with
    | none =>
      ({ st with salt := some salt, iv := some iv, master_key := some key,
                 initialized := false }, false)
    | some v =>
      ({ st with salt := some salt, iv := some iv, master_key := some key,
                 vault := v, initialized := true }, true)

/-- `PasswordManager.initialize`. `readOk = false` models `open`/`read`
raising an `OSError`: there is no `try` around them, so the exception
propagates to the caller (`.error ()`). The method has no `return`
statement on any path, so its Python return value is `None` on every
path — modelled as the `Option Bool` component being `none`. -/
def initializeManager (bc : BlockCipher) (ser : Vault → Bytes)
    (deser : Bytes → Option Vault) (derive : String → Bytes → Bytes)
    (st : ManagerState) (w : World) (master_password : String)
    (newSalt newIv : Bytes) (readOk ioOk : Bool) :
    Except Unit (ManagerState × World × Option Bool) :=
  match w with
  | none =>
    let r := _create_new_vault bc ser derive st w master_password newSalt newIv ioOk
    .ok (r.1, r.2, none)
  | some encrypted_data =>
    if readOk = false then .error ()
    else if encrypted_data.length = 0 then
      let r := _create_new_vault bc ser derive st w master_password newSalt newIv ioOk
      .ok (r.1, r.2, none)
    else
      let r := _load_vault bc deser derive st encrypted_data master_password
      .ok (r.1, some encrypted_data, none)

/-- `PasswordManager.add_password`. `generated` stands for the value of
`self.generate_password()` used when `password is None`; `date` for
`self._get_current_date()`. -/
def add_password (bc : BlockCipher) (ser : Vault → Bytes) (st : ManagerState)
    (w : World) (service username : String) (password : Option String)
    (generated : String) (url notes date : String) (ioOk : Bool) :
    ManagerState × World × Bool :=
  if st.initialized = false then (st, w, false)
  else
    let pw := password.getD generated
    let e : Entry := { password := pw, url := url, notes := notes, date_modified := date }
    let st' := { st with vault := addToVault st.vault service username e }
    save_vault bc ser st' w ioOk

/-- `PasswordManager.get_password`. -/
def get_password (st : ManagerState) (service username : String) : Option Entry :=
  if st.initialized = false then none
  else
    match dictGet service st.vault with
    | none => none
    | some inner => dictGet username inner

/-- `PasswordManager.remove_password`. -/
def remove_password (bc : BlockCipher) (ser : Vault → Bytes) (st : ManagerState)
    (w : World) (service : String) (username : Option String) (ioOk : Bool) :
    ManagerState × World × Bool :=
  if st.initialized = false then (st, w, false)
  else
    match dictGet service st.vault with
    | none => (st, w, false)
    | some inner =>
      match username with
      | none =>
        let st' := { st with vault := dictErase service st.vault }
        save_vault bc ser st' w ioOk
      | some u =>
        match dictGet u inner with
        | none => (st, w, false)
        | some _ =>
          let inner' := dictErase u inner
          let newVault :=
            if inner' = [] then dictErase service st.vault
            else dictSet service inner' st.vault
          let st' := { st with vault := newVault }
          save_vault bc ser st' w ioOk

/-- `PasswordManager.get_all_services` (`sorted(self.vault.keys())`). -/
def get_all_services (st : ManagerState) : List String :=
  if st.initialized = false then []
  else (st.vault.map Prod.fst).insertionSort (fun a b => a ≤ b)

/-- `PasswordManager.change_master_password`. `newSalt` stands for the
fresh `os.urandom(16)`; `secrets.compare_digest` is functionally byte
equality (its constant-time execution is a timing property outside the
model). A `None` salt or key would make the `try` body raise, caught as
`False`. -/
def change_master_password (bc : BlockCipher) (ser : Vault → Bytes)
    (derive : String → Bytes → Bytes) (st : ManagerState) (w : World)
    (current_password new_master_password : String) (newSalt : Bytes)
    (ioOk : Bool) : ManagerState × World × Bool :=
  if st.initialized = false then (st, w, false)
  else
    match st.salt, st.master_key with
    | some salt, some mk =>
      let test_key := derive current_password salt
      if test_key ≠ mk then (st, w, false)
      else
        let new_key := derive new_master_password newSalt
        let st' := { st with salt := some newSalt, master_key := some new_key }
        let r := save_vault bc ser st' w ioOk
        if r.2.2 then (r.1, r.2.1, true)
        else ({ r.1 with salt := st.salt, master_key := st.master_key }, r.2.1, false)
    | _, _ => (st, w, false)

/-! ## Credential generator (`generate_password`) -/

def ascii_uppercase : List Char := "ABCDEFGHIJKLMNOPQRSTUVWXYZ".data

def ascii_lowercase : List Char := "abcdefghijklmnopqrstuvwxyz".data

def ascii_digits : List Char := "0123456789".data

/-- `string.punctuation`: the ASCII characters in the ranges
33–47, 58–64, 91–96 and 123–126. -/
def isPunctChar (c : Char) : Bool :=
  (33 ≤ c.toNat && c.toNat ≤ 47) || (58 ≤ c.toNat && c.toNat ≤ 64) ||
  (91 ≤ c.toNat && c.toNat ≤ 96) || (123 ≤ c.toNat && c.toNat ≤ 126)

def ascii_punctuation : List Char :=
  ((List.range 128).map Char.ofNat).filter isPunctChar

/-- The pool `chars` built by `generate_password`; classes are appended
in the source's order, and `string.ascii_letters` is
`ascii_lowercase + ascii_uppercase`. -/
def generateChars (include_uppercase include_lowercase include_digits include_special : Bool) :
    List Char :=
  let chars :=
    (if include_uppercase then ascii_uppercase else []) ++
    (if include_lowercase then ascii_lowercase else []) ++
    (if include_digits then ascii_digits else []) ++
    (if include_special then ascii_punctuation else [])
  if chars = [] then ascii_lowercase ++ ascii_uppercase ++ ascii_digits ++ ascii_punctuation
  else chars

/-- `PasswordManager.generate_password`. `secrets.choice(chars)` picks
one element of `chars`; the random source enters as the oracle `pick`,
reduced modulo the pool size so every draw is a pool element. Python's
`range(length)` on a non-positive `length` is empty, hence
`Int.toNat`. -/
def generate_password (pick : Nat → Nat) (length : Int)
    (include_uppercase include_lowercase include_digits include_special : Bool) :
    List Char :=
  let chars := generateChars include_uppercase include_lowercase include_digits include_special
  (List.range length.toNat).map (fun i => chars.getD (pick i % chars.length) 'A')

/-! ## Strength scorer (`check_password_strength`) -/

/-- The repeated-run test as the source wrote it:
`re.search(r'(.)\\1\x7b2,\x7d', password)`. Inside a raw string the two
backslashes are a regex-escaped literal backslash, so the pattern is:
any character except a newline, a literal backslash, then the character
1 at least twice — NOT a back-reference to a repeated character. -/
def hasRepeatMatch : List Char → Bool
  | c :: '\\' :: '1' :: '1' :: rest =>
    if c = '\n' then hasRepeatMatch ('\\' :: '1' :: '1' :: rest) else true
  | _ :: rest => hasRepeatMatch rest
  | [] => false

/-- Python substring test `needle in hay`. -/
def isSubstringOf (needle : List Char) : List Char → Bool
  | [] => needle.isEmpty
  | a :: rest => needle.isPrefixOf (a :: rest) || isSubstringOf needle rest

/-- The inner loop `for i in range(len(seq) - 2): if seq[i:i+3] in
password.lower(): ... break` — true iff some window of three
consecutive characters of `seq` occurs in `pw`. -/
def anyTripleIn (seq pw : List Char) : Bool :=
  match seq with
  | a :: b :: c :: rest => isSubstringOf [a, b, c] pw || anyTripleIn (b :: c :: rest) pw
  | _ => false

/-- `check_password_strength`: returns (score, strength text, feedback),
with the score kept as an integer until the final clamp. -/
def check_password_strength (password : List Char) : Int × String × List String :=
  let n := password.length
  let lenScore : Int := if n < 8 then 0 else if 12 ≤ n then 25 else 15
  let lenFeedback : List String :=
    if n < 8 then ["Password is too short (at least 8 characters recommended)"] else []
  let has_lowercase := password.any Char.isLower
  let has_uppercase := password.any Char.isUpper
  let has_digits := password.any Char.isDigit
  let has_special := password.any (fun c => !c.isAlphanum)
  let varietyScore : Int :=
    (if has_lowercase then 10 else 0) + (if has_uppercase then 10 else 0) +
    (if has_digits then 10 else 0) + (if has_special then 10 else 0)
  let varietyFeedback : List String :=
    (if has_lowercase then [] else ["Add lowercase letters"]) ++
    (if has_uppercase then [] else ["Add uppercase letters"]) ++
    (if has_digits then [] else ["Add numbers"]) ++
    (if has_special then [] else ["Add special characters"])
  let repeatHit := hasRepeatMatch password
  let repeatFeedback : List String := if repeatHit then ["Avoid repeating characters"] else []
  let pwLower := password.map Char.toLower
  let seqLowerHit := anyTripleIn ascii_lowercase pwLower
  let seqDigitHit := anyTripleIn ascii_digits pwLower
  let seqFeedback : List String :=
    (if seqLowerHit then ["Avoid sequential characters"] else []) ++
    (if seqDigitHit then ["Avoid sequential characters"] else [])
  let score : Int :=
    lenScore + varietyScore - (if repeatHit then 10 else 0) -
    (if seqLowerHit then 10 else 0) - (if seqDigitHit then 10 else 0) +
    (if 16 < n then 10 else 0) +
    (if has_lowercase && has_uppercase && has_digits && has_special then 15 else 0)
  let score := max 0 (min 100 score)
  let strength_text :=
    if score ≤ 25 then "Very Weak"
    else if score ≤ 50 then "Weak"
    else if score ≤ 75 then "Medium"
    else "Strong"
  (score, strength_text, lenFeedback ++ varietyFeedback ++ repeatFeedback ++ seqFeedback)

/-! ## File-operation trace of `save_vault` (for the atomicity claim) -/

/-- The filesystem effects of `save_vault`'s write path:
`open(self.vault_file, "wb")` truncates the file, then `f.write(...)`
appends the bytes. There is no temporary file and no rename. -/
inductive FsOp where
  | truncate : FsOp
  | write : Bytes → FsOp
deriving DecidableEq

def applyOp (f : World) : FsOp → World
  | .truncate => some []
  | .write b => some (f.getD [] ++ b)

def runOps (f : World) (ops : List FsOp) : World := ops.foldl applyOp f

/-- The trace of filesystem operations `save_vault` performs on its
success path (empty when it bails out before opening the file). -/
def save_vault_ops (bc : BlockCipher) (ser : Vault → Bytes) (st : ManagerState) :
    List FsOp :=
  if st.initialized = false then []
  else
    match st.salt, st.iv, st.master_key with
    | some salt, some iv, some key =>
      [FsOp.truncate, FsOp.write (salt ++ iv ++ _encrypt bc (ser st.vault) key iv)]
    | _, _, _ => []

/-- An overwrite is atomic when every interruption point shows either
the old or the final contents. -/
def atomicWrite (old : World) (ops : List FsOp) : Prop :=
  ∀ k, runOps old (ops.take k) = old ∨ runOps old (ops.take k) = runOps old ops

/-! ## Concrete instantiations of the abstract parameters, used for
witnesses and counterexamples -/

/-- A trivial block transform (a permutation, as AES is): enough to
instantiate the abstract-cipher hypotheses on concrete inputs. -/
def idCipher : BlockCipher := { enc := fun _ b => b, dec := fun _ b => b }

/-- A concrete key-derivation stand-in for witnesses. -/
def constDerive : String → Bytes → Bytes := fun _ _ => List.replicate 32 7

/-- The vault obtained by adding ("github", "alice", "P@ssw0rd1") to an
empty vault (used to instantiate serialisation hypotheses). -/
def sampleEntry : Entry :=
  { password := "P@ssw0rd1", url := "", notes := "", date_modified := "2024-01-01" }

def sampleVault : Vault := [("github", [("alice", sampleEntry)])]

/-- A serialiser/deserialiser pair that is correct at `sampleVault`. -/
def sampleSer : Vault → Bytes := fun _ => [1, 2, 3]

def sampleDeser : Bytes → Option Vault := fun _ => some sampleVault

/-- A deserialiser that always fails (a JSON parse error on every
input), for exercising the failure paths. -/
def failDeser : Bytes → Option Vault := fun _ => none

/-- A concrete unlocked state used by witnesses. -/
def sampleState : ManagerState :=
  { master_key := some (constDerive "pw" (List.replicate 16 0)),
    vault := sampleVault,
    salt := some (List.replicate 16 0),
    iv := some (List.replicate 16 1),
    initialized := true }

/-! ## Lemmas about the cipher codec -/

theorem length_pad (data : Bytes) :
    (_pad data).length = data.length + (16 - data.length % 16) := by
  simp [_pad, blockSize]

theorem pad_length_mod (data : Bytes) : (_pad data).length % 16 = 0 := by
  have h16 : data.length % 16 < 16 := Nat.mod_lt _ (by norm_num)
  have := Nat.div_add_mod data.length 16
  rw [length_pad]
  omega

theorem unpad_pad (data : Bytes) : _unpad (_pad data) = some data := by
  have h16 : data.length % 16 < 16 := Nat.mod_lt _ (by norm_num)
  have hp : 0 < 16 - data.length % 16 := by omega
  have hpad : _pad data = data ++ List.replicate (16 - data.length % 16) (16 - data.length % 16) := by
    simp [_pad, blockSize]
  obtain ⟨n, hn⟩ : ∃ n, 16 - data.length % 16 = n + 1 := ⟨16 - data.length % 16 - 1, by omega⟩
  have hlast : (_pad data).getLast? = some (16 - data.length % 16) := by
    rw [hpad, List.getLast?_append_of_ne_nil]
    · rw [hn, List.replicate_succ', List.getLast?_concat]
    · rw [hn]; simp [List.replicate_succ]
  unfold _unpad
  rw [hlast]
  have hne : ¬ (16 - data.length % 16 = 0) := by omega
  simp only [hne, if_false, Option.some.injEq]
  rw [hpad]
  have hlen : (data ++ List.replicate (16 - data.length % 16) (16 - data.length % 16)).length
      = data.length + (16 - data.length % 16) := by simp
  rw [hlen, Nat.add_sub_cancel, List.take_append_eq_append_take, List.take_length,
    Nat.sub_self, List.take_zero, List.append_nil]

theorem toBlocksAux_nil (fuel : Nat) : toBlocksAux fuel [] = [] := by
  cases fuel <;> rfl

theorem toBlocksAux_fuel_eq :
    ∀ fuel₁ fuel₂ l, l.length ≤ fuel₁ → l.length ≤ fuel₂ →
      toBlocksAux fuel₁ l = toBlocksAux fuel₂ l := by
  intro fuel₁
  induction fuel₁ with
  | zero =>
    intro fuel₂ l h₁ _
    have : l = [] := List.eq_nil_of_length_eq_zero (Nat.le_zero.mp h₁)
    subst this
    rw [toBlocksAux_nil, toBlocksAux_nil]
  | succ f ih =>
    intro fuel₂ l h₁ h₂
    match l, fuel₂ with
    | [], _ => rw [toBlocksAux_nil, toBlocksAux_nil]
    | a :: rest, 0 => simp at h₂
    | a :: rest, g + 1 =>
      show ((a :: rest).take blockSize :: toBlocksAux f ((a :: rest).drop blockSize))
          = ((a :: rest).take blockSize :: toBlocksAux g ((a :: rest).drop blockSize))
      have hd : ((a :: rest).drop blockSize).length ≤ f := by
        simp only [List.length_drop, List.length_cons, blockSize]
        simp only [List.length_cons] at h₁
        omega
      have hd₂ : ((a :: rest).drop blockSize).length ≤ g := by
        simp only [List.length_drop, List.length_cons, blockSize]
        simp only [List.length_cons] at h₂
        omega
      rw [ih _ _ hd hd₂]

theorem toBlocks_cons_eq (l : Bytes) (h : l ≠ []) :
    toBlocks l = l.take 16 :: toBlocks (l.drop 16) := by
  match l, h with
  | a :: rest, _ =>
    show toBlocksAux (rest.length + 1) (a :: rest) = _
    have : toBlocksAux (rest.length + 1) (a :: rest)
        = (a :: rest).take blockSize :: toBlocksAux rest.length ((a :: rest).drop blockSize) := rfl
    rw [this]
    have hlen : ((a :: rest).drop blockSize).length ≤ rest.length := by
      simp [blockSize]
    rw [toBlocksAux_fuel_eq rest.length ((a :: rest).drop blockSize).length _ hlen le_rfl]
    simp [toBlocks, blockSize]

theorem flatten_toBlocksAux :
    ∀ fuel l, l.length ≤ fuel → (toBlocksAux fuel l).flatten = l := by
  intro fuel
  induction fuel with
  | zero =>
    intro l h
    have : l = [] := List.eq_nil_of_length_eq_zero (Nat.le_zero.mp h)
    subst this; rfl
  | succ f ih =>
    intro l h
    match l with
    | [] => rfl
    | a :: rest =>
      show ((a :: rest).take blockSize :: toBlocksAux f ((a :: rest).drop blockSize)).flatten = _
      rw [List.flatten_cons,
        ih _ (by simp only [List.length_drop, List.length_cons, blockSize] at *; omega),
        List.take_append_drop]

theorem flatten_toBlocks (l : Bytes) : (toBlocks l).flatten = l :=
  flatten_toBlocksAux l.length l le_rfl

theorem toBlocksAux_block_lengths :
    ∀ fuel l, l.length ≤ fuel → l.length % 16 = 0 →
      ∀ b ∈ toBlocksAux fuel l, b.length = 16 := by
  intro fuel
  induction fuel with
  | zero =>
    intro l h _ b hb
    have : l = [] := List.eq_nil_of_length_eq_zero (Nat.le_zero.mp h)
    subst this; simp [toBlocksAux_nil] at hb
  | succ f ih =>
    intro l h hmod b hb
    match l with
    | [] => simp [toBlocksAux_nil] at hb
    | a :: rest =>
      have hlen : (a :: rest).length = rest.length + 1 := by simp
      have hge : 16 ≤ (a :: rest).length := by
        rw [hlen]; rw [hlen] at hmod; omega
      rw [show toBlocksAux (f + 1) (a :: rest)
          = (a :: rest).take blockSize :: toBlocksAux f ((a :: rest).drop blockSize) from rfl] at hb
      rcases List.mem_cons.mp hb with h1 | h1
      · subst h1
        simp only [List.length_take, blockSize]
        omega
      · refine ih _ ?_ ?_ _ h1
        · simp only [List.length_drop, blockSize]
          omega
        · simp only [List.length_drop, blockSize]
          rw [hlen] at hmod ⊢
          omega

theorem toBlocks_block_lengths (l : Bytes) (hmod : l.length % 16 = 0) :
    ∀ b ∈ toBlocks l, b.length = 16 :=
  toBlocksAux_block_lengths l.length l le_rfl hmod

theorem toBlocks_append16 (b r : Bytes) (hb : b.length = 16) :
    toBlocks (b ++ r) = b :: toBlocks r := by
  have hne : b ++ r ≠ [] := by
    intro h
    have := congrArg List.length h
    simp [hb] at this
  rw [toBlocks_cons_eq _ hne]
  have ht : (b ++ r).take 16 = b := by
    rw [List.take_append_eq_append_take, hb, Nat.sub_self, List.take_zero, List.append_nil,
      ← hb, List.take_length]
  have hd : (b ++ r).drop 16 = r := by
    rw [List.drop_append_eq_append_drop, hb, Nat.sub_self, List.drop_zero,
      ← hb, List.drop_length, List.nil_append]
  rw [ht, hd]

theorem toBlocks_flatten_of_lengths (blocks : List Bytes)
    (h : ∀ b ∈ blocks, b.length = 16) : toBlocks blocks.flatten = blocks := by
  induction blocks with
  | nil => rfl
  | cons b bs ih =>
    rw [List.flatten_cons, toBlocks_append16 _ _ (h b (List.mem_cons_self _ _)),
      ih (fun x hx => h x (List.mem_cons_of_mem _ hx))]

theorem flatten_length_mod (blocks : List Bytes)
    (h : ∀ b ∈ blocks, b.length = 16) : blocks.flatten.length % 16 = 0 := by
  induction blocks with
  | nil => rfl
  | cons b bs ih =>
    rw [List.flatten_cons, List.length_append, h b (List.mem_cons_self _ _)]
    have := ih (fun x hx => h x (List.mem_cons_of_mem _ hx))
    omega

theorem length_xorBytes (a b : Bytes) : (xorBytes a b).length = min a.length b.length := by
  simp [xorBytes]

theorem xorBytes_cancel :
    ∀ a b : Bytes, a.length = b.length → xorBytes a (xorBytes a b) = b := by
  intro a
  induction a with
  | nil =>
    intro b h
    have : b = [] := List.eq_nil_of_length_eq_zero (by simp at h; omega)
    subst this; rfl
  | cons x xs ih =>
    intro b h
    match b with
    | [] => simp at h
    | y :: ys =>
      simp only [xorBytes, List.zipWith_cons_cons, List.cons.injEq]
      exact ⟨Nat.xor_cancel_left x y, ih ys (by simpa using h)⟩

theorem cbcEncBlocks_lengths (bc : BlockCipher) (key : Bytes)
    (hlen : ∀ k x, x.length = 16 → (bc.enc k x).length = 16) :
    ∀ blocks prev, prev.length = 16 → (∀ b ∈ blocks, b.length = 16) →
      ∀ c ∈ cbcEncBlocks bc key prev blocks, c.length = 16 := by
  intro blocks
  induction blocks with
  | nil => intro prev _ _ c hc; simp [cbcEncBlocks] at hc
  | cons b bs ih =>
    intro prev hprev hb c hc
    simp only [cbcEncBlocks] at hc
    have hx : (xorBytes prev b).length = 16 := by
      rw [length_xorBytes, hprev, hb b (List.mem_cons_self _ _)]; simp
    have hcl : (bc.enc key (xorBytes prev b)).length = 16 := hlen _ _ hx
    rcases List.mem_cons.mp hc with h1 | h1
    · subst h1; exact hcl
    · exact ih _ hcl (fun x hx => hb x (List.mem_cons_of_mem _ hx)) c h1

theorem cbcDecBlocks_cbcEncBlocks (bc : BlockCipher) (key : Bytes)
    (hdec : ∀ k x, x.length = 16 → bc.dec k (bc.enc k x) = x)
    (hlen : ∀ k x, x.length = 16 → (bc.enc k x).length = 16) :
    ∀ blocks prev, prev.length = 16 → (∀ b ∈ blocks, b.length = 16) →
      cbcDecBlocks bc key prev (cbcEncBlocks bc key prev blocks) = blocks := by
  intro blocks
  induction blocks with
  | nil => intro prev _ _; rfl
  | cons b bs ih =>
    intro prev hprev hb
    have hblen : b.length = 16 := hb b (List.mem_cons_self _ _)
    have hx : (xorBytes prev b).length = 16 := by
      rw [length_xorBytes, hprev, hblen]; simp
    simp only [cbcEncBlocks, cbcDecBlocks, List.cons.injEq]
    constructor
    · rw [hdec _ _ hx, xorBytes_cancel _ _ (by rw [hprev, hblen])]
    · exact ih _ (hlen _ _ hx) (fun x hxm => hb x (List.mem_cons_of_mem _ hxm))

theorem decrypt_encrypt (bc : BlockCipher)
    (hdec : ∀ k x, x.length = 16 → bc.dec k (bc.enc k x) = x)
    (hlen : ∀ k x, x.length = 16 → (bc.enc k x).length = 16)
    (data key iv : Bytes) (hiv : iv.length = 16) :
    _decrypt bc (_encrypt bc data key iv) key iv = some data := by
  have hblocks : ∀ b ∈ toBlocks (_pad data), b.length = 16 :=
    toBlocks_block_lengths _ (pad_length_mod data)
  have hct : ∀ c ∈ cbcEncBlocks bc key iv (toBlocks (_pad data)), c.length = 16 :=
    cbcEncBlocks_lengths bc key hlen _ iv hiv hblocks
  have hmod : (_encrypt bc data key iv).length % 16 = 0 := by
    unfold _encrypt
    exact flatten_length_mod _ hct
  unfold _decrypt
  rw [if_pos (by simpa [blockSize] using hmod)]
  unfold _encrypt
  rw [toBlocks_flatten_of_lengths _ hct,
    cbcDecBlocks_cbcEncBlocks bc key hdec hlen _ iv hiv hblocks,
    flatten_toBlocks, unpad_pad]

/-! ## Claim C3: cipher codec round-trip -/

/-- C3: for every 32-byte key, 16-byte IV and plaintext `P` of any
length, `_decrypt (_encrypt P key iv) key iv = P` (no exception), and
PKCS#7 padding adds between 1 and 16 bytes, making the padded length a
multiple of 16. The AES-256 block transform enters as an abstract block
permutation `bc` (per-block inverse, 16-byte outputs). -/
theorem C3_cipher_roundtrip (bc : BlockCipher)
    (hdec : ∀ k x, x.length = 16 → bc.dec k (bc.enc k x) = x)
    (hlen : ∀ k x, x.length = 16 → (bc.enc k x).length = 16)
    (key iv P : Bytes) (hkey : key.length = 32) (hiv : iv.length = 16) :
    _decrypt bc (_encrypt bc P key iv) key iv = some P ∧
    1 ≤ (_pad P).length - P.length ∧
    (_pad P).length - P.length ≤ 16 ∧
    (_pad P).length % 16 = 0 := by
  have h16 : P.length % 16 < 16 := Nat.mod_lt _ (by norm_num)
  refine ⟨decrypt_encrypt bc hdec hlen P key iv hiv, ?_, ?_, pad_length_mod P⟩
  · rw [length_pad]; omega
  · rw [length_pad]; omega

theorem C3_cipher_roundtrip_witness :
    _decrypt idCipher (_encrypt idCipher [1, 2, 3] (List.replicate 32 0) (List.replicate 16 0))
      (List.replicate 32 0) (List.replicate 16 0) = some [1, 2, 3] ∧
    1 ≤ (_pad [1, 2, 3]).length - ([1, 2, 3] : Bytes).length ∧
    (_pad [1, 2, 3]).length - ([1, 2, 3] : Bytes).length ≤ 16 ∧
    (_pad [1, 2, 3]).length % 16 = 0 :=
  C3_cipher_roundtrip idCipher (fun _ _ _ => rfl) (fun _ _ h => h)
    (List.replicate 32 0) (List.replicate 16 0) [1, 2, 3] (by decide) (by decide)

/-! ## Claim C10: `_unpad` is not total -/

/-- C10: `_unpad` raises on the empty byte string (modelled `none`);
for every byte string ending in a `0` byte it returns the empty byte
string (`padded_data[:-0]` drops everything); consequently `_decrypt`
on arbitrary ciphertext can fail (empty input) or silently produce a
wrong plaintext (a 16-byte block whose decryption ends in `0` yields
the empty plaintext). -/
theorem C10_unpad_not_total :
    _unpad ([] : Bytes) = none ∧
    (∀ l : Bytes, l ≠ [] → l.getLast? = some 0 → _unpad l = some []) ∧
    _decrypt idCipher ([] : Bytes) (List.replicate 32 0) (List.replicate 16 0) = none ∧
    _decrypt idCipher (List.replicate 15 7 ++ [0]) (List.replicate 32 0)
      (List.replicate 16 0) = some [] := by
  refine ⟨rfl, ?_, by decide, by decide⟩
  intro l _ h0
  simp [_unpad, h0]

theorem C10_unpad_not_total_witness : _unpad [5, 0] = some [] :=
  C10_unpad_not_total.2.1 [5, 0] (by decide) (by decide)

/-! ## Claim C6: the repeated-run penalty (code bug) -/

/-- C6 (code bug): the source's repeated-run test is the raw-string
regex `(.)\\1\x7b2,\x7d`, which matches a character followed by a literal
backslash and two `1` characters — never a plain 3-repeated run. So
`check_password_strength "aaaaaaaa"` scores 25 (below 50, with the
missing-class feedback) but emits NO repeated-characters feedback and
applies no −10 penalty, contradicting the claim (and the source's own
comment); a string actually containing `\11` does trigger it. -/
theorem C6_repeat_regex_misses_runs :
    check_password_strength "aaaaaaaa".data =
      (25, "Very Weak", ["Add uppercase letters", "Add numbers", "Add special characters"]) ∧
    "Avoid repeating characters" ∉ (check_password_strength "aaaaaaaa".data).2.2 ∧
    hasRepeatMatch "aaaaaaaa".data = false ∧
    hasRepeatMatch "x\\11y".data = true := by
  refine ⟨by decide, by decide, by decide, by decide⟩

/-! ## Claim C9: credential generation policy -/

theorem generateChars_ne_nil (u l d s : Bool) : generateChars u l d s ≠ [] := by
  revert u l d s; decide

theorem getD_mod_mem (cs : List Char) (h : cs ≠ []) (k : Nat) :
    cs.getD (k % cs.length) 'A' ∈ cs := by
  have hlen : 0 < cs.length := List.length_pos.mpr h
  have hk : k % cs.length < cs.length := Nat.mod_lt _ hlen
  rw [List.getD_eq_getElem?_getD, List.getElem?_eq_getElem hk]
  exact List.getElem_mem _

theorem no_upper_in_pool (l d s : Bool) (h : l = true ∨ d = true ∨ s = true) :
    ∀ c ∈ generateChars false l d s, ¬('A' ≤ c ∧ c ≤ 'Z') := by
  revert l d s; decide

/-- C9: `generate_password` returns exactly `max(length, 0)` characters,
each drawn from the pool of the enabled classes (with the documented
fallback pool when no class is enabled); `length ≤ 0` yields the empty
string; and disabling uppercase (with at least one class enabled)
excludes every character in `A`–`Z`. The random source enters as the
oracle `pick`. -/
theorem C9_generate_policy (pick : Nat → Nat) (length : Int)
    (u l d s : Bool) :
    (generate_password pick length u l d s).length = length.toNat ∧
    ((generate_password pick length u l d s).length : Int) = max length 0 ∧
    (∀ c ∈ generate_password pick length u l d s, c ∈ generateChars u l d s) ∧
    (length ≤ 0 → generate_password pick length u l d s = []) ∧
    (u = false → (l = true ∨ d = true ∨ s = true) →
      ∀ c ∈ generate_password pick length u l d s, ¬('A' ≤ c ∧ c ≤ 'Z')) := by
  have hlen : (generate_password pick length u l d s).length = length.toNat := by
    simp [generate_password]
  have hmem : ∀ c ∈ generate_password pick length u l d s, c ∈ generateChars u l d s := by
    intro c hc
    simp only [generate_password, List.mem_map] at hc
    obtain ⟨i, _, rfl⟩ := hc
    exact getD_mod_mem _ (generateChars_ne_nil u l d s) _
  refine ⟨hlen, ?_, hmem, ?_, ?_⟩
  · rw [hlen, Int.toNat_eq_max]
  · intro hle
    have : length.toNat = 0 := Int.toNat_of_nonpos hle
    simp [generate_password, this]
  · intro hu henabled c hc
    subst hu
    exact no_upper_in_pool l d s henabled c (hmem c hc)

theorem C9_generate_policy_witness :
    (generate_password (fun i => i * 7) 20 false true true true).length = (20 : Int).toNat ∧
    ((generate_password (fun i => i * 7) 20 false true true true).length : Int) = max 20 0 ∧
    (∀ c ∈ generate_password (fun i => i * 7) 20 false true true true,
      c ∈ generateChars false true true true) ∧
    (∀ c ∈ generate_password (fun i => i * 7) 20 false true true true,
      ¬('A' ≤ c ∧ c ≤ 'Z')) ∧
    generate_password (fun i => i * 7) (-3) true true true true = [] := by
  have h := C9_generate_policy (fun i => i * 7) 20 false true true true
  have h' := C9_generate_policy (fun i => i * 7) (-3) true true true true
  exact ⟨h.1, h.2.1, h.2.2.1, h.2.2.2.2 rfl (Or.inl rfl), h'.2.2.2.1 (by decide)⟩

/-! ## Frame lemmas for the state-mutating operations -/

theorem save_vault_fst (bc : BlockCipher) (ser : Vault → Bytes) (st : ManagerState)
    (w : World) (ioOk : Bool) : (save_vault bc ser st w ioOk).1 = st := by
  unfold save_vault
  split
  · rfl
  · split
    · split <;> rfl
    · rfl

theorem save_vault_io_fail (bc : BlockCipher) (ser : Vault → Bytes) (st : ManagerState)
    (w : World) : save_vault bc ser st w false = (st, w, false) := by
  unfold save_vault
  split
  · rfl
  · split
    · simp
    · rfl

theorem save_vault_success (bc : BlockCipher) (ser : Vault → Bytes) (st : ManagerState)
    (w : World) (salt iv key : Bytes) (hinit : st.initialized = true)
    (hs : st.salt = some salt) (hi : st.iv = some iv) (hk : st.master_key = some key) :
    save_vault bc ser st w true
      = (st, some (salt ++ iv ++ _encrypt bc (ser st.vault) key iv), true) := by
  unfold save_vault
  rw [hinit, hs, hi, hk]
  simp

theorem change_master_password_frame (bc : BlockCipher) (ser : Vault → Bytes)
    (derive : String → Bytes → Bytes) (st : ManagerState) (w : World)
    (cur new : String) (newSalt : Bytes) (ioOk : Bool) :
    (change_master_password bc ser derive st w cur new newSalt ioOk).1.iv = st.iv ∧
    (change_master_password bc ser derive st w cur new newSalt ioOk).1.vault = st.vault ∧
    (change_master_password bc ser derive st w cur new newSalt ioOk).1.initialized
      = st.initialized := by
  unfold change_master_password
  split
  · exact ⟨rfl, rfl, rfl⟩
  · split
    · dsimp only
      split
      · exact ⟨rfl, rfl, rfl⟩
      · simp only [save_vault_fst]
        split <;> exact ⟨rfl, rfl, rfl⟩
    · exact ⟨rfl, rfl, rfl⟩

/-! ## Claim C7: the IV frame property -/

/-- C7: neither `save_vault` nor `change_master_password` (nor the CRUD
operations, which only re-save) modifies the stored IV; rotation also
leaves the vault and the unlocked flag untouched, changing only the
salt, the key and the persisted bytes. -/
theorem C7_iv_frame (bc : BlockCipher) (ser : Vault → Bytes)
    (derive : String → Bytes → Bytes) (st : ManagerState) (w : World)
    (cur new : String) (newSalt : Bytes) (ioOk : Bool)
    (service username : String) (password : Option String)
    (generated url notes date : String) (uname : Option String) :
    (save_vault bc ser st w ioOk).1.iv = st.iv ∧
    (change_master_password bc ser derive st w cur new newSalt ioOk).1.iv = st.iv ∧
    (change_master_password bc ser derive st w cur new newSalt ioOk).1.vault = st.vault ∧
    (change_master_password bc ser derive st w cur new newSalt ioOk).1.initialized
      = st.initialized ∧
    (add_password bc ser st w service username password generated url notes date ioOk).1.iv
      = st.iv ∧
    (remove_password bc ser st w service uname ioOk).1.iv = st.iv := by
  have hc := change_master_password_frame bc ser derive st w cur new newSalt ioOk
  refine ⟨by rw [save_vault_fst], hc.1, hc.2.1, hc.2.2, ?_, ?_⟩
  · unfold add_password
    split
    · rfl
    · simp only [save_vault_fst]
  · unfold remove_password
    split
    · rfl
    · split
      · rfl
      · split
        · simp only [save_vault_fst]
        · split
          · rfl
          · simp only [save_vault_fst]

/-! ## Claim C4: rotation atomicity -/

/-- C4: `change_master_password` either fully succeeds or leaves the
session state exactly as before: a wrong current password (candidate
key ≠ stored key, compared with `secrets.compare_digest`) fails with
state and file untouched; a persist failure restores the prior salt and
key exactly (the whole state is the input state); on success only salt,
key and the persisted bytes change. -/
theorem C4_rotation_atomic (bc : BlockCipher) (ser : Vault → Bytes)
    (derive : String → Bytes → Bytes) (st : ManagerState) (w : World)
    (cur new : String) (newSalt : Bytes) (ioOk : Bool) (salt mk : Bytes)
    (hinit : st.initialized = true) (hs : st.salt = some salt)
    (hk : st.master_key = some mk) :
    (derive cur salt ≠ mk →
      change_master_password bc ser derive st w cur new newSalt ioOk = (st, w, false)) ∧
    (derive cur salt = mk →
      change_master_password bc ser derive st w cur new newSalt false = (st, w, false)) ∧
    (∀ iv0, st.iv = some iv0 → derive cur salt = mk →
      change_master_password bc ser derive st w cur new newSalt true =
        ({ st with salt := some newSalt, master_key := some (derive new newSalt) },
         some (newSalt ++ iv0 ++ _encrypt bc (ser st.vault) (derive new newSalt) iv0),
         true)) := by
  obtain ⟨mk0, v0, sa0, i0, ini0⟩ := st
  simp only at hs hk hinit
  subst hs hk hinit
  refine ⟨?_, ?_, ?_⟩
  · intro hne
    simp [change_master_password, hne]
  · intro heq
    simp [change_master_password, heq, save_vault_io_fail]
  · intro iv0 hiv heq
    simp only at hiv
    subst hiv
    simp only [change_master_password, heq, ne_eq, not_true_eq_false, if_false,
      Bool.true_eq_false]
    rw [save_vault_success bc ser
      { master_key := some (derive new newSalt), vault := v0, salt := some newSalt,
        iv := some iv0, initialized := true } w newSalt iv0 (derive new newSalt)
      rfl rfl rfl rfl]
    simp

theorem C4_rotation_atomic_witness :
    change_master_password idCipher sampleSer constDerive sampleState none
      "pw" "new-pass" (List.replicate 16 2) false = (sampleState, none, false) :=
  (C4_rotation_atomic idCipher sampleSer constDerive sampleState none
    "pw" "new-pass" (List.replicate 16 2) false (List.replicate 16 0)
    (constDerive "pw" (List.replicate 16 0)) rfl rfl rfl).2.1 rfl

/-! ## Claim C5: persist is not atomic (corrected) -/

/-- C5 counterexample: `save_vault` on a concrete unlocked state emits
the trace truncate-then-write; interrupting after the truncation leaves
an empty file that is neither the old nor the new contents, so the
overwrite is not atomic. -/
theorem C5_not_atomic_counterexample :
    ¬ atomicWrite (some [9]) (save_vault_ops idCipher sampleSer sampleState) := by
  intro h
  have h1 := h 1
  revert h1
  decide

/-- C5 (amended): `save_vault` overwrites the container in place —
`open(.., "wb")` truncates, then one write, with no write-then-rename —
so an interruption between the two leaves an empty container; on I/O
failure it returns `False` leaving the in-memory key, salt, IV and
vault (the whole state) and the file unchanged. -/
theorem C5_persist_in_place (bc : BlockCipher) (ser : Vault → Bytes)
    (st : ManagerState) (w : World) (salt iv key : Bytes)
    (hinit : st.initialized = true) (hs : st.salt = some salt)
    (hi : st.iv = some iv) (hk : st.master_key = some key) :
    save_vault_ops bc ser st
      = [FsOp.truncate, FsOp.write (salt ++ iv ++ _encrypt bc (ser st.vault) key iv)] ∧
    runOps w ((save_vault_ops bc ser st).take 1) = some [] ∧
    save_vault bc ser st w false = (st, w, false) := by
  have hops : save_vault_ops bc ser st
      = [FsOp.truncate, FsOp.write (salt ++ iv ++ _encrypt bc (ser st.vault) key iv)] := by
    unfold save_vault_ops
    rw [hinit, hs, hi, hk]
    simp
  exact ⟨hops, by rw [hops]; rfl, save_vault_io_fail bc ser st w⟩

theorem C5_persist_in_place_witness :
    save_vault_ops idCipher sampleSer sampleState
      = [FsOp.truncate, FsOp.write (List.replicate 16 0 ++ List.replicate 16 1 ++
          _encrypt idCipher (sampleSer sampleState.vault)
            (constDerive "pw" (List.replicate 16 0)) (List.replicate 16 1))] ∧
    runOps (some [9]) ((save_vault_ops idCipher sampleSer sampleState).take 1) = some [] ∧
    save_vault idCipher sampleSer sampleState (some [9]) false
      = (sampleState, some [9], false) :=
  C5_persist_in_place idCipher sampleSer sampleState (some [9])
    (List.replicate 16 0) (List.replicate 16 1)
    (constDerive "pw" (List.replicate 16 0)) rfl rfl rfl rfl

/-! ## Association-list (dict) lemmas -/

theorem dictGet_dictSet_self {α : Type} (k : String) (v : α) (l : List (String × α)) :
    dictGet k (dictSet k v l) = some v := by
  induction l with
  | nil => simp [dictSet, dictGet]
  | cons p rest ih =>
    obtain ⟨k', v'⟩ := p
    by_cases h : k = k'
    · simp [dictSet, dictGet, h]
    · simp [dictSet, dictGet, h, ih]

theorem dictGet_dictSet_ne {α : Type} (k k' : String) (v : α) (l : List (String × α))
    (h : k' ≠ k) : dictGet k' (dictSet k v l) = dictGet k' l := by
  induction l with
  | nil => simp [dictSet, dictGet, h]
  | cons p rest ih =>
    obtain ⟨k₀, v₀⟩ := p
    by_cases h0 : k = k₀
    · subst h0
      simp [dictSet, dictGet, h]
    · by_cases h1 : k' = k₀ <;> simp [dictSet, dictGet, h0, h1, ih]

theorem dictGet_eq_none_iff {α : Type} (k : String) (l : List (String × α)) :
    dictGet k l = none ↔ k ∉ l.map Prod.fst := by
  induction l with
  | nil => simp [dictGet]
  | cons p rest ih =>
    obtain ⟨k₀, v₀⟩ := p
    by_cases h : k = k₀
    · subst h
      simp [dictGet]
    · simp [dictGet, h, ih]

theorem dictGet_mem {α : Type} (k : String) (v : α) :
    ∀ l : List (String × α), dictGet k l = some v → (k, v) ∈ l := by
  intro l
  induction l with
  | nil => simp [dictGet]
  | cons p rest ih =>
    obtain ⟨k₀, v₀⟩ := p
    by_cases h : k = k₀
    · subst h
      intro hv
      have hv' : v₀ = v := by simpa [dictGet] using hv
      subst hv'
      exact List.mem_cons_self _ _
    · simp only [dictGet, if_neg h]
      intro hv
      exact List.mem_cons_of_mem _ (ih hv)

theorem dictGet_dictErase_self {α : Type} (k : String) (l : List (String × α))
    (h : keysNodup l) : dictGet k (dictErase k l) = none := by
  induction l with
  | nil => simp [dictErase, dictGet]
  | cons p rest ih =>
    obtain ⟨k₀, v₀⟩ := p
    simp only [keysNodup, List.map_cons, List.nodup_cons] at h
    by_cases h0 : k = k₀
    · subst h0
      simp only [dictErase, if_pos rfl]
      exact (dictGet_eq_none_iff k rest).mpr h.1
    · simp only [dictErase, if_neg h0, dictGet, if_neg h0]
      exact ih h.2

theorem dictGet_dictErase_ne {α : Type} (k k' : String) (l : List (String × α))
    (h : k' ≠ k) : dictGet k' (dictErase k l) = dictGet k' l := by
  induction l with
  | nil => simp [dictErase]
  | cons p rest ih =>
    obtain ⟨k₀, v₀⟩ := p
    by_cases h0 : k = k₀
    · subst h0
      simp [dictErase, dictGet, h]
    · by_cases h1 : k' = k₀ <;> simp [dictErase, dictGet, h0, h1, ih]

theorem mem_dictSet {α : Type} (k : String) (v : α) :
    ∀ l : List (String × α), ∀ p ∈ dictSet k v l, p = (k, v) ∨ p ∈ l := by
  intro l
  induction l with
  | nil => simp [dictSet]
  | cons q rest ih =>
    obtain ⟨k₀, v₀⟩ := q
    intro p hp
    by_cases h : k = k₀
    · simp only [dictSet, if_pos h] at hp
      rcases List.mem_cons.mp hp with h1 | h1
      · exact Or.inl h1
      · exact Or.inr (List.mem_cons_of_mem _ h1)
    · simp only [dictSet, if_neg h] at hp
      rcases List.mem_cons.mp hp with h1 | h1
      · exact Or.inr (by simp [h1])
      · rcases ih p h1 with h2 | h2
        · exact Or.inl h2
        · exact Or.inr (List.mem_cons_of_mem _ h2)

theorem mem_dictErase {α : Type} (k : String) :
    ∀ l : List (String × α), ∀ p ∈ dictErase k l, p ∈ l := by
  intro l
  induction l with
  | nil => simp [dictErase]
  | cons q rest ih =>
    obtain ⟨k₀, v₀⟩ := q
    intro p hp
    by_cases h : k = k₀
    · simp only [dictErase, if_pos h] at hp
      exact List.mem_cons_of_mem _ hp
    · simp only [dictErase, if_neg h] at hp
      rcases List.mem_cons.mp hp with h1 | h1
      · exact List.mem_cons.mpr (Or.inl h1)
      · exact List.mem_cons_of_mem _ (ih p h1)

theorem dictSet_ne_nil {α : Type} (k : String) (v : α) (l : List (String × α)) :
    dictSet k v l ≠ [] := by
  cases l with
  | nil => simp [dictSet]
  | cons q rest =>
    obtain ⟨k₀, v₀⟩ := q
    by_cases h : k = k₀ <;> simp [dictSet, h]

theorem noEmptyService_addToVault (vault : Vault) (s u : String) (e : Entry)
    (h : noEmptyService vault) : noEmptyService (addToVault vault s u e) := by
  intro p hp
  rcases mem_dictSet _ _ _ p hp with h1 | h1
  · subst h1
    exact dictSet_ne_nil _ _ _
  · exact h p h1

theorem remove_password_found (bc : BlockCipher) (ser : Vault → Bytes)
    (st : ManagerState) (w : World) (service u : String) (ioOk : Bool)
    (inner : ServiceMap) (e : Entry)
    (hinit : st.initialized = true) (hai : dictGet service st.vault = some inner)
    (hu : dictGet u inner = some e) :
    remove_password bc ser st w service (some u) ioOk
      = save_vault bc ser
          { st with vault := if dictErase u inner = [] then dictErase service st.vault
                             else dictSet service (dictErase u inner) st.vault } w ioOk := by
  simp [remove_password, hinit, hai, hu]

/-! ## Claim C8: removal semantics and the no-empty-service invariant -/

/-- C8: on an unlocked store, `remove_password service (some u)` deletes
exactly that entry (every other (service, username) lookup is
unchanged) and deletes the service when its username dict becomes
empty (it then also disappears from `get_all_services`);
`remove_password service none` deletes the whole service; a missing
target returns `False` with state and file unchanged; and both removal
and `addToVault` preserve the invariant that no service maps to an
empty username dict. -/
theorem C8_remove_semantics (bc : BlockCipher) (ser : Vault → Bytes)
    (st : ManagerState) (w : World) (service : String) (ioOk : Bool)
    (hinit : st.initialized = true)
    (hnodup : keysNodup st.vault)
    (hinner : ∀ p ∈ st.vault, keysNodup p.2)
    (hnes : noEmptyService st.vault) :
    (dictGet service st.vault = none →
      ∀ uname, remove_password bc ser st w service uname ioOk = (st, w, false)) ∧
    (∀ inner u, dictGet service st.vault = some inner → dictGet u inner = none →
      remove_password bc ser st w service (some u) ioOk = (st, w, false)) ∧
    (∀ inner u e, dictGet service st.vault = some inner → dictGet u inner = some e →
      get_password (remove_password bc ser st w service (some u) ioOk).1 service u = none ∧
      (∀ s' u', s' ≠ service ∨ u' ≠ u →
        get_password (remove_password bc ser st w service (some u) ioOk).1 s' u'
          = get_password st s' u') ∧
      (dictErase u inner = [] →
        dictGet service (remove_password bc ser st w service (some u) ioOk).1.vault = none ∧
        service ∉ get_all_services (remove_password bc ser st w service (some u) ioOk).1) ∧
      noEmptyService (remove_password bc ser st w service (some u) ioOk).1.vault) ∧
    (∀ inner, dictGet service st.vault = some inner →
      dictGet service (remove_password bc ser st w service none ioOk).1.vault = none ∧
      (∀ s', s' ≠ service →
        dictGet s' (remove_password bc ser st w service none ioOk).1.vault
          = dictGet s' st.vault) ∧
      noEmptyService (remove_password bc ser st w service none ioOk).1.vault) ∧
    (∀ s u e, noEmptyService (addToVault st.vault s u e)) := by
  refine ⟨?_, ?_, ?_, ?_, ?_⟩
  · intro ha uname
    cases uname <;> simp [remove_password, hinit, ha]
  · intro inner u hai hu
    simp [remove_password, hinit, hai, hu]
  · intro inner u e hai hu
    have hkinner : keysNodup inner := hinner (service, inner) (dictGet_mem _ _ _ hai)
    have hres : (remove_password bc ser st w service (some u) ioOk).1
        = { st with vault := if dictErase u inner = [] then dictErase service st.vault
                             else dictSet service (dictErase u inner) st.vault } := by
      rw [remove_password_found bc ser st w service u ioOk inner e hinit hai hu,
        save_vault_fst]
    rw [hres]
    by_cases hemp : dictErase u inner = []
    · rw [if_pos hemp]
      refine ⟨?_, ?_, ?_, ?_⟩
      · simp [get_password, hinit, dictGet_dictErase_self service st.vault hnodup]
      · intro s' u' hne
        by_cases hs' : s' = service
        · subst hs'
          have hu' : u' ≠ u := by tauto
          have h1 : dictGet s' (dictErase s' st.vault) = none :=
            dictGet_dictErase_self s' st.vault hnodup
          have h2 : dictGet u' inner = none := by
            rw [← dictGet_dictErase_ne u u' inner hu', hemp]; rfl
          simp [get_password, hinit, h1, hai, h2]
        · have h1 : dictGet s' (dictErase service st.vault) = dictGet s' st.vault :=
            dictGet_dictErase_ne service s' st.vault hs'
          simp [get_password, hinit, h1]
      · intro _
        constructor
        · exact dictGet_dictErase_self service st.vault hnodup
        · simp only [get_all_services, hinit]
          intro hmem
          have hperm := List.perm_insertionSort (fun a b : String => a ≤ b)
            ((dictErase service st.vault).map Prod.fst)
          have : service ∈ (dictErase service st.vault).map Prod.fst :=
            hperm.mem_iff.mp hmem
          exact (dictGet_eq_none_iff service _).mp
            (dictGet_dictErase_self service st.vault hnodup) this
      · intro p hp
        exact hnes p (mem_dictErase _ _ p hp)
    · rw [if_neg hemp]
      refine ⟨?_, ?_, ?_, ?_⟩
      · have h1 : dictGet u (dictErase u inner) = none :=
          dictGet_dictErase_self u inner hkinner
        simp [get_password, hinit, dictGet_dictSet_self, h1]
      · intro s' u' hne
        by_cases hs' : s' = service
        · subst hs'
          have hu' : u' ≠ u := by tauto
          have h2 : dictGet u' (dictErase u inner) = dictGet u' inner :=
            dictGet_dictErase_ne u u' inner hu'
          simp [get_password, hinit, dictGet_dictSet_self, hai, h2]
        · have h1 : dictGet s' (dictSet service (dictErase u inner) st.vault)
              = dictGet s' st.vault := dictGet_dictSet_ne service s' _ _ hs'
          simp [get_password, hinit, h1]
      · intro hc
        exact absurd hc hemp
      · intro p hp
        rcases mem_dictSet _ _ _ p hp with h1 | h1
        · subst h1
          exact hemp
        · exact hnes p h1
  · intro inner hai
    have hres : (remove_password bc ser st w service none ioOk).1
        = { st with vault := dictErase service st.vault } := by
      simp [remove_password, hinit, hai, save_vault_fst]
    rw [hres]
    refine ⟨dictGet_dictErase_self service st.vault hnodup, ?_, ?_⟩
    · intro s' hs'
      exact dictGet_dictErase_ne service s' st.vault hs'
    · intro p hp
      exact hnes p (mem_dictErase _ _ p hp)
  · intro s u e
    exact noEmptyService_addToVault st.vault s u e hnes

theorem C8_remove_semantics_witness :
    get_password (remove_password idCipher sampleSer sampleState none
      "github" (some "alice") true).1 "github" "alice" = none ∧
    dictGet "github" (remove_password idCipher sampleSer sampleState none
      "github" (some "alice") true).1.vault = none ∧
    "github" ∉ get_all_services (remove_password idCipher sampleSer sampleState none
      "github" (some "alice") true).1 := by
  have h := (C8_remove_semantics idCipher sampleSer sampleState none "github" true
    rfl (by show (sampleState.vault.map Prod.fst).Nodup; decide)
    (by show ∀ p ∈ sampleState.vault, (p.2.map Prod.fst).Nodup; decide)
    (by show ∀ p ∈ sampleState.vault, p.2 ≠ []; decide)).2.2.1
    [("alice", sampleEntry)] "alice" sampleEntry rfl rfl
  exact ⟨h.1, (h.2.2.1 rfl).1, (h.2.2.1 rfl).2⟩

/-! ## Claim C2: failure behaviour of initialize (corrected) -/

/-- C2 counterexample: on an existing container whose read raises an
I/O error, `initialize` propagates the exception to the caller
(`.error ()` — not a `False` return); and on a container whose
content fails to parse, the store stays Locked but the method returns
Python `None` (the `none` in the third component), not the boolean
`False` the claim requires. -/
theorem C2_initialize_counterexample :
    initializeManager idCipher sampleSer failDeser constDerive initialState
      (some [1]) "pw" [] [] false true = .error () ∧
    initializeManager idCipher sampleSer failDeser constDerive initialState
      (some (List.replicate 48 0)) "pw" [] [] true true
      = .ok ({ master_key := some (List.replicate 32 7), vault := [],
               salt := some (List.replicate 16 0), iv := some (List.replicate 16 0),
               initialized := false }, some (List.replicate 48 0), none) := by
  exact ⟨rfl, rfl⟩

/-- C2 (amended): on a decrypt/padding or JSON-parse failure while
initializing from an existing non-empty container, the store remains
Locked (every subsequent `get_password` returns `none`) and no
exception reaches the caller, but the method's Python return value is
`None` — not the boolean `False` — and an I/O error while reading the
container propagates as an exception. -/
theorem C2_initialize_failure_behaviour (bc : BlockCipher) (ser : Vault → Bytes)
    (deser : Bytes → Option Vault) (derive : String → Bytes → Bytes)
    (st : ManagerState) (data : Bytes) (pw : String) (newSalt newIv : Bytes)
    (ioOk : Bool) (hne : data ≠ [])
    (hfail : ∀ pt, _decrypt bc (data.drop 32) (derive pw ((data.take 32).take 16))
        (((data.take 32).drop 16).take 16) = some pt → deser pt = none) :
    initializeManager bc ser deser derive st (some data) pw newSalt newIv true ioOk
      = .ok ((_load_vault bc deser derive st data pw).1, some data, none) ∧
    (_load_vault bc deser derive st data pw).1.initialized = false ∧
    (∀ s u, get_password (_load_vault bc deser derive st data pw).1 s u = none) ∧
    initializeManager bc ser deser derive st (some data) pw newSalt newIv false ioOk
      = .error () := by
  have hlen0 : ¬ (data.length = 0) := fun h => hne (List.length_eq_zero.mp h)
  have hinitF : (_load_vault bc deser derive st data pw).1.initialized = false := by
    simp only [_load_vault]
    cases hd : _decrypt bc (data.drop 32) (derive pw ((data.take 32).take 16))
        (((data.take 32).drop 16).take 16) with
    | none => rfl
    | some pt =>
      simp only [hfail pt hd]
  refine ⟨?_, hinitF, ?_, rfl⟩
  · simp [initializeManager, hlen0]
  · intro s u
    simp [get_password, hinitF]

theorem C2_initialize_failure_witness :
    initializeManager idCipher sampleSer failDeser constDerive initialState
      (some (List.replicate 48 0)) "pw" [] [] false true = .error () :=
  (C2_initialize_failure_behaviour idCipher sampleSer failDeser constDerive initialState
    (List.replicate 48 0) "pw" [] [] true (by decide) (fun _ _ => rfl)).2.2.2

/-! ## Claim C1: persistence round-trip -/

/-- C1: creating a vault with master password `P`, adding the entry
(service, username, pwd), persisting, then initializing a fresh manager
on the produced container with the same password `P` unlocks the store
and `get_password service username` returns an entry whose password is
`pwd`. The AES block transform, the KDF and the JSON codec enter as
abstract parameters; the KDF is a function, so equal passwords and
salts give equal keys, and the codec hypothesis is required only at the
vault value actually serialised. -/
theorem C1_unlock_roundtrip (bc : BlockCipher)
    (hdec : ∀ k x, x.length = 16 → bc.dec k (bc.enc k x) = x)
    (hlen : ∀ k x, x.length = 16 → (bc.enc k x).length = 16)
    (ser : Vault → Bytes) (deser : Bytes → Option Vault)
    (derive : String → Bytes → Bytes)
    (P service username pwd generated url notes date : String)
    (salt0 iv0 newSalt newIv : Bytes)
    (hs : salt0.length = 16) (hi : iv0.length = 16)
    (e : Entry) (he : e = { password := pwd, url := url, notes := notes,
                            date_modified := date })
    (v : Vault) (hv : v = addToVault [] service username e)
    (hdeser : deser (ser v) = some v) :
    _create_new_vault bc ser derive initialState none P salt0 iv0 true
      = ({ master_key := some (derive P salt0), vault := [], salt := some salt0,
           iv := some iv0, initialized := true },
         some (salt0 ++ iv0 ++ _encrypt bc (ser []) (derive P salt0) iv0)) ∧
    add_password bc ser
        { master_key := some (derive P salt0), vault := [], salt := some salt0,
          iv := some iv0, initialized := true }
        (some (salt0 ++ iv0 ++ _encrypt bc (ser []) (derive P salt0) iv0))
        service username (some pwd) generated url notes date true
      = ({ master_key := some (derive P salt0), vault := v, salt := some salt0,
           iv := some iv0, initialized := true },
         some (salt0 ++ iv0 ++ _encrypt bc (ser v) (derive P salt0) iv0), true) ∧
    initializeManager bc ser deser derive initialState
        (some (salt0 ++ iv0 ++ _encrypt bc (ser v) (derive P salt0) iv0))
        P newSalt newIv true true
      = .ok ({ master_key := some (derive P salt0), vault := v, salt := some salt0,
               iv := some iv0, initialized := true },
             some (salt0 ++ iv0 ++ _encrypt bc (ser v) (derive P salt0) iv0), none) ∧
    get_password
        { master_key := some (derive P salt0), vault := v, salt := some salt0,
          iv := some iv0, initialized := true } service username = some e ∧
    e.password = pwd := by
  have hct : _decrypt bc (_encrypt bc (ser v) (derive P salt0) iv0) (derive P salt0) iv0
      = some (ser v) := decrypt_encrypt bc hdec hlen (ser v) (derive P salt0) iv0 hi
  have hsi : (salt0 ++ iv0).length = 32 := by
    rw [List.length_append, hs, hi]
  refine ⟨?_, ?_, ?_, ?_, ?_⟩
  · simp only [_create_new_vault]
    rw [save_vault_success bc ser
      { master_key := some (derive P salt0), vault := [], salt := some salt0,
        iv := some iv0, initialized := true } none salt0 iv0 (derive P salt0)
      rfl rfl rfl rfl]
  · simp only [add_password]
    rw [if_neg (by simp)]
    simp only [Option.getD_some]
    rw [← he, ← hv]
    rw [save_vault_success bc ser
      { master_key := some (derive P salt0), vault := v, salt := some salt0,
        iv := some iv0, initialized := true }
      (some (salt0 ++ iv0 ++ _encrypt bc (ser []) (derive P salt0) iv0))
      salt0 iv0 (derive P salt0) rfl rfl rfl rfl]
  · have hne2 : ¬ ((salt0 ++ iv0 ++ _encrypt bc (ser v) (derive P salt0) iv0).length = 0) := by
      rw [List.length_append, hsi]
      omega
    have hload : _load_vault bc deser derive initialState
        (salt0 ++ iv0 ++ _encrypt bc (ser v) (derive P salt0) iv0) P
        = ({ master_key := some (derive P salt0), vault := v, salt := some salt0,
             iv := some iv0, initialized := true }, true) := by
      simp only [_load_vault]
      rw [List.take_left' hsi, List.drop_left' hsi, List.take_left' hs, List.drop_left' hs,
        show iv0.take 16 = iv0 from by rw [← hi, List.take_length], hct]
      simp [hdeser]
    simp only [initializeManager]
    rw [if_neg hne2, hload]
    simp
  · have hsv : dictGet service v = some (dictSet username e []) := by
      rw [hv]
      simp only [addToVault, dictGet, Option.getD_none]
      simp
    simp only [get_password]
    rw [if_neg (by simp), hsv]
    simp [dictGet_dictSet_self]
  · rw [he]

theorem C1_unlock_roundtrip_witness :
    get_password
        { master_key := some (constDerive "correct-horse" (List.replicate 16 0)),
          vault := sampleVault, salt := some (List.replicate 16 0),
          iv := some (List.replicate 16 1), initialized := true } "github" "alice"
      = some sampleEntry ∧
    sampleEntry.password = "P@ssw0rd1" := by
  have h := C1_unlock_roundtrip idCipher (fun _ _ _ => rfl) (fun _ _ hx => hx)
    sampleSer sampleDeser constDerive "correct-horse" "github" "alice" "P@ssw0rd1"
    "gen" "" "" "2024-01-01" (List.replicate 16 0) (List.replicate 16 1) [] []
    (by decide) (by decide) sampleEntry rfl sampleVault (by decide) rfl
  exact ⟨h.2.2.2.1, h.2.2.2.2⟩

end PMAES
